import Mathlib

/-!
# Verification of the Knko-fr practitioner presence / availability backend

Shallow embedding of the Express + SQLite backend:

* `active_sessions` table (`server/config/database.js`, `UNIQUE(userId)`) and the
  handlers that touch it: practitioner login (`server/routes/auth.js`), logout,
  the HTTP heartbeat (`routes/practitioner.js`, `POST /heartbeat`), and the
  Socket.IO `practitioner:heartbeat` handler (`server/index.js`).
* `practitioner_availability` table (`UNIQUE(practitionerId, dayOfWeek)`) and the
  `POST /availability` upsert, `GET /availability` list and
  `DELETE /availability/:id` handlers (`routes/practitioner.js`).
* the roster read `GET /all` with its 5-minute freshness query.

Timestamps are seconds since an arbitrary epoch (`Nat`); SQLite's
`CURRENT_TIMESTAMP` has second granularity.  Database tables are lists of rows;
`INSERT OR REPLACE` on a `UNIQUE(userId)` table removes any row with the same
`userId` and appends the fresh one.  Fallible storage calls take a `Bool` flag
saying whether the underlying query errors, mirroring the `err` parameter of the
node-sqlite3 callbacks.
-/

namespace Knko

/-- One row of the `active_sessions` table (the PresenceRecord). -/
structure SessionRow where
  userId : Nat
  lastActivity : Nat
  ipAddress : String
  userAgent : String
deriving Repr, DecidableEq

abbrev SessionTable := List SessionRow

/-- `INSERT OR REPLACE INTO active_sessions (userId, lastActivity, ipAddress, userAgent)
VALUES (?, CURRENT_TIMESTAMP, ?, ?)` — on a table with `UNIQUE(userId)` this deletes
any conflicting row and inserts the new one. -/
def insertOrReplaceSession (t : SessionTable) (u : Nat) (now : Nat)
    (ip ua : String) : SessionTable :=
  t.filter (fun r => r.userId != u) ++ [⟨u, now, ip, ua⟩]

/-- `DELETE FROM active_sessions WHERE userId = ?` (logout). -/
def deleteSession (t : SessionTable) (u : Nat) : SessionTable :=
  t.filter (fun r => r.userId != u)

/-- The freshness window of the roster query: `'-5 minutes'`, in seconds. -/
def freshnessWindowSeconds : Nat := 300

/-- The `WHERE` clause of the roster's active-session query:
`datetime(lastActivity) > datetime('now', '-5 minutes')`, i.e. the row's
`lastActivity` is *strictly* later than `now − 300` seconds. -/
def sessionFresh (now : Nat) (r : SessionRow) : Bool :=
  now - freshnessWindowSeconds < r.lastActivity

/-- Activity classification as the code computes it: some `active_sessions` row for
the user satisfies the freshness `WHERE` clause (`routes/practitioner.js`, `GET /all`). -/
def isActive (t : SessionTable) (now : Nat) (u : Nat) : Bool :=
  t.any (fun r => r.userId == u && sessionFresh now r)

/-- Modelled from the spec's words (for comparison with `isActive`):
"a record exists AND now() − lastActivity ≤ freshnessWindow".  The spec uses a
non-strict bound where the code's SQL comparison is strict. -/
def isActiveSpec (t : SessionTable) (now : Nat) (u : Nat) : Bool :=
  t.any (fun r => r.userId == u && now - r.lastActivity ≤ freshnessWindowSeconds)

/-- A `practitioner:status` Socket.IO broadcast payload. -/
structure StatusEvent where
  userId : Nat
  isActive : Bool
  lastActivity : Option Nat
deriving Repr, DecidableEq

/-! ## Availability calendar (`practitioner_availability`) -/

/-- A wall-clock time of day at minute granularity.  The route's regex
`([0-1][0-9]|2[0-3]):[0-5][0-9]` accepts exactly the strings with hour < 24 and
minute < 60, which this structure plus `validHM` captures. -/
structure HM where
  hour : Nat
  minute : Nat
deriving Repr, DecidableEq

/-- Whether a time matches the HH:MM 24-hour pattern of `validateAvailability`. -/
def validHM (t : HM) : Bool := t.hour < 24 && t.minute < 60

/-- `startHour * 60 + startMin` as computed in the upsert handler. -/
def HM.toMinutes (t : HM) : Nat := t.hour * 60 + t.minute

/-- The seven day names accepted by `body('dayOfWeek').isIn([...])`. -/
def dayNames : List String :=
  ["Monday", "Tuesday", "Wednesday", "Thursday", "Friday", "Saturday", "Sunday"]

def validDay (d : String) : Bool := dayNames.contains d

/-- The `ORDER BY CASE dayOfWeek WHEN "Monday" THEN 1 ... WHEN "Sunday" THEN 7 END`
rank.  A name outside the seven yields SQL `NULL`, which sorts first in ascending
order; it is modelled as rank 0. -/
def dayRank (d : String) : Nat :=
  if d == "Monday" then 1
  else if d == "Tuesday" then 2
  else if d == "Wednesday" then 3
  else if d == "Thursday" then 4
  else if d == "Friday" then 5
  else if d == "Saturday" then 6
  else if d == "Sunday" then 7
  else 0

/-- One row of `practitioner_availability`. -/
structure SlotRow where
  id : Nat
  practitionerId : Nat
  dayOfWeek : String
  startTime : HM
  endTime : HM
deriving Repr, DecidableEq

/-- The `practitioner_availability` table plus the AUTOINCREMENT counter that
supplies `this.lastID` on insert. -/
structure AvailDB where
  rows : List SlotRow
  nextId : Nat
deriving Repr, DecidableEq

/-- `UNIQUE(practitionerId, dayOfWeek)`: no two rows share the pair. -/
def availKeyUnique (db : AvailDB) : Prop :=
  db.rows.Pairwise
    (fun a b => a.practitionerId ≠ b.practitionerId ∨ a.dayOfWeek ≠ b.dayOfWeek)

/-- `id INTEGER PRIMARY KEY`: no two rows share an id. -/
def availIdUnique (db : AvailDB) : Prop :=
  db.rows.Pairwise (fun a b => a.id ≠ b.id)

/-- Outcome of the `POST /availability` handler: resulting table, HTTP status, and
the `availability` object of the success body. -/
structure UpsertOut where
  db : AvailDB
  status : Nat
  slot : Option SlotRow
deriving Repr, DecidableEq

/-- `POST /availability`: express-validator checks (day name, HH:MM patterns), the
minutes-since-midnight ordering check, then `SELECT id ... WHERE practitionerId = ?
AND dayOfWeek = ?` followed by either `UPDATE ... WHERE id = ?` (responding with the
existing id) or `INSERT` (responding with `this.lastID`). -/
def upsert (db : AvailDB) (p : Nat) (d : String) (s e : HM) : UpsertOut :=
  if ¬ (validDay d && validHM s && validHM e) then ⟨db, 400, none⟩
  else if e.toMinutes ≤ s.toMinutes then ⟨db, 400, none⟩
  else
    match db.rows.find? (fun r => r.practitionerId == p && r.dayOfWeek == d) with
    | some ex =>
        ⟨⟨db.rows.map (fun r =>
            if r.id == ex.id then { r with startTime := s, endTime := e } else r),
          db.nextId⟩,
         200, some ⟨ex.id, p, d, s, e⟩⟩
    | none =>
        ⟨⟨db.rows ++ [⟨db.nextId, p, d, s, e⟩], db.nextId + 1⟩,
         200, some ⟨db.nextId, p, d, s, e⟩⟩

/-- Ordering used by the `GET /availability` query: ascending day rank. -/
def slotLe (a b : SlotRow) : Prop := dayRank a.dayOfWeek ≤ dayRank b.dayOfWeek

instance : DecidableRel slotLe := fun _ _ => Nat.decLe _ _

instance : IsTotal SlotRow slotLe := ⟨fun _ _ => Nat.le_total _ _⟩

instance : IsTrans SlotRow slotLe := ⟨fun _ _ _ => Nat.le_trans⟩

/-- Strict day-rank order; antisymmetric (vacuously), used to show the listing
is determined uniquely when day ranks are pairwise distinct. -/
def slotLt (a b : SlotRow) : Prop := dayRank a.dayOfWeek < dayRank b.dayOfWeek

instance : IsTrans SlotRow slotLt := ⟨fun _ _ _ => Nat.lt_trans⟩

instance : IsAntisymm SlotRow slotLt :=
  ⟨fun _ _ h1 h2 => absurd (Nat.lt_trans h1 h2) (Nat.lt_irrefl _)⟩

/-- `GET /availability`: `SELECT * FROM practitioner_availability WHERE
practitionerId = ? ORDER BY CASE dayOfWeek ... END`. -/
def listAvailability (db : AvailDB) (p : Nat) : List SlotRow :=
  List.insertionSort slotLe (db.rows.filter (fun r => r.practitionerId == p))

/-- Outcome of `DELETE /availability/:id`. -/
structure DeleteOut where
  db : AvailDB
  status : Nat
deriving Repr, DecidableEq

/-- `DELETE /availability/:id`: `DELETE FROM practitioner_availability WHERE id = ?
AND practitionerId = ?`; `this.changes === 0` yields 404, otherwise 200. -/
def deleteSlot (db : AvailDB) (slotId : Nat) (p : Nat) : DeleteOut :=
  let changes :=
    db.rows.countP (fun r => r.id == slotId && r.practitionerId == p)
  let remaining :=
    db.rows.filter (fun r => ¬ (r.id == slotId && r.practitionerId == p))
  if changes == 0 then ⟨⟨remaining, db.nextId⟩, 404⟩
  else ⟨⟨remaining, db.nextId⟩, 200⟩

/-! ## Users and the auth / heartbeat handlers -/

/-- One row of the `users` table.  `password` stands for the stored bcrypt hash;
`bcrypt.compare` is modelled by `passwordMatches`. -/
structure UserRow where
  id : Nat
  email : String
  password : String
  firstName : String
  lastName : String
  userType : String
deriving Repr, DecidableEq

/-- Model of `bcrypt.compare(submitted, storedHash)`: the submitted password is
the one the stored hash was derived from. -/
def passwordMatches (submitted stored : String) : Bool := submitted == stored

/-- `SELECT * FROM users WHERE email = ?` (first match). -/
def findUserByEmail (users : List UserRow) (email : String) : Option UserRow :=
  users.find? (fun u => u.email == email)

/-- Response of `POST /login` together with its side effects on `active_sessions`
and the Socket.IO broadcasts it issues. -/
structure LoginOut where
  status : Nat
  errorMsg : Option String
  sessions : SessionTable
  events : List StatusEvent
deriving Repr, DecidableEq

/-- `POST /login` (validation already passed): look up the user by email, check the
password, and for practitioners issue the `INSERT OR REPLACE` presence write whose
failure is logged but does not fail the login (the 200 response is sent
unconditionally after the write is issued). -/
def login (users : List UserRow) (sessions : SessionTable) (writeFails : Bool)
    (email password : String) (now : Nat) (ip ua : String) : LoginOut :=
  match findUserByEmail users email with
  | none => ⟨401, some "Invalid email or password", sessions, []⟩
  | some u =>
      if ¬ passwordMatches password u.password then
        ⟨401, some "Invalid email or password", sessions, []⟩
      else if u.userType == "practitioner" then
        if writeFails then ⟨200, none, sessions, []⟩
        else ⟨200, none, insertOrReplaceSession sessions u.id now ip ua,
              [⟨u.id, true, some now⟩]⟩
      else ⟨200, none, sessions, []⟩

/-- Response of `POST /logout` with its side effects. -/
structure LogoutOut where
  status : Nat
  sessions : SessionTable
  events : List StatusEvent
deriving Repr, DecidableEq

/-- `POST /logout`: with a verifiable token, practitioners get a presence `DELETE`
whose failure is logged but does not fail the logout; the 200 response is sent
unconditionally after the delete is issued. -/
def logout (sessions : SessionTable) (writeFails : Bool) (tokenValid : Bool)
    (uid : Nat) (utype : String) : LogoutOut :=
  if ¬ tokenValid then ⟨401, sessions, []⟩
  else if utype == "practitioner" then
    if writeFails then ⟨200, sessions, []⟩
    else ⟨200, deleteSession sessions uid, [⟨uid, false, none⟩]⟩
  else ⟨200, sessions, []⟩

/-- Response of `POST /heartbeat` with its side effects. -/
structure HeartbeatOut where
  status : Nat
  sessions : SessionTable
  events : List StatusEvent
deriving Repr, DecidableEq

/-- `POST /heartbeat` (token-authenticated practitioner `uid`): the response is
sent *inside* the write's callback, so a storage error yields 500 and no
broadcast, while success yields the broadcast and 200. -/
def httpHeartbeat (sessions : SessionTable) (writeFails : Bool) (uid : Nat)
    (now : Nat) (ip ua : String) : HeartbeatOut :=
  if writeFails then ⟨500, sessions, []⟩
  else ⟨200, insertOrReplaceSession sessions uid now ip ua, [⟨uid, true, some now⟩]⟩

/-- JavaScript truthiness of the destructured `userId` field: absent
(`undefined`) and `0` are falsy. -/
def jsTruthy : Option Nat → Bool
  | none => false
  | some n => n != 0

/-- The Socket.IO `practitioner:heartbeat` handler (`server/index.js`): if the
payload's `userId` is truthy, issue the `INSERT OR REPLACE` write and, only when
it succeeds, broadcast `practitioner:status`; a falsy `userId` does nothing, and a
write error is only logged. -/
def socketHeartbeat (sessions : SessionTable) (writeFails : Bool)
    (payload : Option Nat) (now : Nat) (ip ua : String) :
    SessionTable × List StatusEvent :=
  match payload with
  | none => (sessions, [])
  | some uid =>
      if uid == 0 then (sessions, [])
      else if writeFails then (sessions, [])
      else (insertOrReplaceSession sessions uid now ip ua, [⟨uid, true, some now⟩])

/-- One entry of the `GET /all` response body. -/
structure PractView where
  id : Nat
  firstName : String
  lastName : String
  email : String
  availability : List SlotRow
  isActive : Bool
  lastActivity : Option Nat
deriving Repr, DecidableEq

/-- `GET /all`: select the practitioners, their availability (ordered by
practitioner then day rank, i.e. per practitioner `listAvailability`), and the
active sessions fresh within 5 minutes; an error on the session query is logged
and `activeSessions` falls back to `[]`, so every entry degrades to inactive. -/
def getAllPractitioners (users : List UserRow) (avail : AvailDB)
    (sessions : SessionTable) (readFails : Bool) (now : Nat) :
    List PractView :=
  let practs := users.filter (fun u => u.userType == "practitioner")
  let ids := practs.map (fun u => u.id)
  let activeRows :=
    if readFails then []
    else sessions.filter (fun r => ids.contains r.userId && sessionFresh now r)
  practs.map (fun u =>
    { id := u.id
      firstName := u.firstName
      lastName := u.lastName
      email := u.email
      availability := listAvailability avail u.id
      isActive := activeRows.any (fun r => r.userId == u.id)
      lastActivity :=
        (activeRows.find? (fun r => r.userId == u.id)).map (fun r => r.lastActivity) })

/-- The `active_sessions` rows belonging to user `v` (row ownership). -/
def presenceRowsOf (t : SessionTable) (v : Nat) : SessionTable :=
  t.filter (fun r => r.userId == v)

/-- Whether a login attempt fails authentication: the email matches no stored
user, or the password is wrong for the matched user (the two 401 branches of
`POST /login`). -/
def loginAuthFails (users : List UserRow) (email password : String) : Bool :=
  match findUserByEmail users email with
  | none => true
  | some u => !(passwordMatches password u.password)

/-! ## Helper lemmas -/

/-- Rows surviving the replace-filter for user `u` never satisfy a predicate that
requires `userId == u`. -/
theorem any_filter_ne (t : SessionTable) (u : Nat) (p : SessionRow → Bool) :
    (t.filter (fun r => r.userId != u)).any (fun r => r.userId == u && p r) = false := by
  rw [Bool.eq_false_iff]
  intro hany
  rcases List.any_eq_true.mp hany with ⟨r, hr, hpr⟩
  rcases List.mem_filter.mp hr with ⟨_, hne⟩
  simp only [Bool.and_eq_true] at hpr
  exact absurd (beq_iff_eq.mp hpr.1) (bne_iff_ne.mp hne)

/-- Filtering twice where the outer predicate implies the inner one collapses to
the outer filter alone. -/
theorem filter_filter_of_imp {α : Type} (p q : α → Bool) (t : List α)
    (h : ∀ r, q r = true → p r = true) :
    (t.filter p).filter q = t.filter q := by
  induction t with
  | nil => rfl
  | cons a t ih =>
      by_cases hq : q a = true
      · have hp := h a hq
        simp [List.filter_cons, hp, hq, ih]
      · have hq' : q a = false := by
          cases hqa : q a
          · rfl
          · exact absurd hqa hq
        cases hp : p a <;> simp [List.filter_cons, hp, hq', ih]

/-- After `markActive`, the user's activity classification reduces to the
freshness of the freshly written row. -/
theorem isActive_insertOrReplace_self (t : SessionTable) (u : Nat)
    (now T : Nat) (ip ua : String) :
    isActive (insertOrReplaceSession t u now ip ua) T u
      = decide (T - freshnessWindowSeconds < now) := by
  unfold isActive insertOrReplaceSession
  rw [List.any_append, any_filter_ne]
  simp [sessionFresh]

theorem presenceRowsOf_insertOrReplace_other (t : SessionTable) (u : Nat)
    (now : Nat) (ip ua : String) (v : Nat) (h : u ≠ v) :
    presenceRowsOf (insertOrReplaceSession t u now ip ua) v = presenceRowsOf t v := by
  unfold presenceRowsOf insertOrReplaceSession
  rw [List.filter_append]
  have hlast :
      List.filter (fun r => r.userId == v)
        ([⟨u, now, ip, ua⟩] : SessionTable) = [] := by
    simp [h]
  rw [hlast, List.append_nil]
  refine filter_filter_of_imp _ _ t (fun r hr => ?_)
  have hv : r.userId = v := beq_iff_eq.mp hr
  simp only [hv, bne_iff_ne, ne_eq]
  exact fun hvu => h hvu.symm

theorem presenceRowsOf_delete_other (t : SessionTable) (u v : Nat) (h : u ≠ v) :
    presenceRowsOf (deleteSession t u) v = presenceRowsOf t v := by
  unfold presenceRowsOf deleteSession
  refine filter_filter_of_imp _ _ t (fun r hr => ?_)
  have hv : r.userId = v := beq_iff_eq.mp hr
  simp only [hv, bne_iff_ne, ne_eq]
  exact fun hvu => h hvu.symm

/-! ## Claims about the presence tracker -/

/-- C1 counterexample: the claim reads activity as "now() − lastActivity is at
most the 5-minute freshness window", but the roster query compares strictly
(`datetime(lastActivity) > datetime('now', '-5 minutes')`).  At exactly 300
elapsed seconds the spec formula says active while the code says inactive. -/
theorem c1_counterexample :
    isActiveSpec [⟨1, 700, "ip", "ua"⟩] 1000 1 = true
    ∧ isActive [⟨1, 700, "ip", "ua"⟩] 1000 1 = false := by
  constructor
  · rfl
  · rfl

/-- C1 (amended): `isActive` is true exactly when a PresenceRecord exists whose
age is *strictly less* than the 5-minute window: right after `markActive(u)` it is
true; it stays true while strictly less than 5 minutes elapse with no further
activity; once at least 5 minutes elapse it is false without any explicit call;
and after `markInactive(u)` it is immediately false regardless of elapsed time. -/
theorem c1_presence_freshness (t : SessionTable) (u : Nat)
    (now later : Nat) (ip ua : String)
    (hnow : 0 < now) (hle : now ≤ later) :
    isActive (insertOrReplaceSession t u now ip ua) now u = true
    ∧ (later - now < freshnessWindowSeconds →
        isActive (insertOrReplaceSession t u now ip ua) later u = true)
    ∧ (freshnessWindowSeconds ≤ later - now →
        isActive (insertOrReplaceSession t u now ip ua) later u = false)
    ∧ isActive (deleteSession t u) later u = false := by
  refine ⟨?_, ?_, ?_, ?_⟩
  · rw [isActive_insertOrReplace_self]
    simp only [freshnessWindowSeconds, decide_eq_true_eq]
    omega
  · intro hfresh
    rw [isActive_insertOrReplace_self]
    simp only [freshnessWindowSeconds, decide_eq_true_eq] at hfresh ⊢
    omega
  · intro hstale
    rw [isActive_insertOrReplace_self]
    simp only [freshnessWindowSeconds] at hstale ⊢
    simp only [decide_eq_false_iff_not]
    omega
  · unfold isActive deleteSession
    exact any_filter_ne t u _

/-- Witness for `c1_presence_freshness` at `t = []`, `u = 1`, `now = 1`,
`later = 301`. -/
theorem c1_presence_freshness_witness :
    isActive (insertOrReplaceSession [] 1 1 "ip" "ua") 1 1 = true
    ∧ (301 - 1 < freshnessWindowSeconds →
        isActive (insertOrReplaceSession [] 1 1 "ip" "ua") 301 1 = true)
    ∧ (freshnessWindowSeconds ≤ 301 - 1 →
        isActive (insertOrReplaceSession [] 1 1 "ip" "ua") 301 1 = false)
    ∧ isActive (deleteSession [] 1) 301 1 = false :=
  c1_presence_freshness [] 1 1 301 "ip" "ua" (by decide) (by decide)

/-- C9: a `practitioner:heartbeat` socket event whose payload `userId` is missing
or falsy performs no database write (the `active_sessions` table is unchanged)
and emits no `practitioner:status` event. -/
theorem c9_socket_heartbeat_falsy_noop (t : SessionTable) (fail : Bool)
    (payload : Option Nat) (now : Nat) (ip ua : String)
    (h : jsTruthy payload = false) :
    socketHeartbeat t fail payload now ip ua = (t, []) := by
  cases payload with
  | none => rfl
  | some uid =>
      have hz : uid = 0 := by simpa [jsTruthy] using h
      subst hz
      rfl

/-- Witness for `c9_socket_heartbeat_falsy_noop` with an absent `userId`. -/
theorem c9_socket_heartbeat_falsy_noop_witness :
    socketHeartbeat [] true none 1000 "ip" "ua" = ([], []) :=
  c9_socket_heartbeat_falsy_noop [] true none 1000 "ip" "ua" (by decide)

/-- C3: the presence rows of a user `v` are mutated only by operations
authenticated as `v` — login (authenticated by password as the user found by
email), HTTP heartbeat and logout (authenticated by the bearer token's userId) —
with the one exception of the socket-heartbeat handler, which mutates presence
on behalf of the user identified in the heartbeat payload, never another: if
none of the four operations is performed as / identified with `v`, the rows of
`v` are untouched. -/
theorem c3_presence_ownership
    (users : List UserRow) (t : SessionTable) (fail : Bool) (email pw : String)
    (now : Nat) (ip ua : String)
    (beatUid logoutUid : Nat) (tokenValid : Bool) (utype : String)
    (payload : Option Nat) (v : Nat)
    (hlogin : ∀ u, findUserByEmail users email = some u → u.id ≠ v)
    (hbeat : beatUid ≠ v) (hlogout : logoutUid ≠ v) (hsock : payload ≠ some v) :
    presenceRowsOf (login users t fail email pw now ip ua).sessions v
        = presenceRowsOf t v
    ∧ presenceRowsOf (httpHeartbeat t fail beatUid now ip ua).sessions v
        = presenceRowsOf t v
    ∧ presenceRowsOf (logout t fail tokenValid logoutUid utype).sessions v
        = presenceRowsOf t v
    ∧ presenceRowsOf (socketHeartbeat t fail payload now ip ua).1 v
        = presenceRowsOf t v := by
  refine ⟨?_, ?_, ?_, ?_⟩
  · unfold login
    cases hf : findUserByEmail users email with
    | none => rfl
    | some u =>
        have hu : u.id ≠ v := hlogin u hf
        by_cases hpw : passwordMatches pw u.password = true
        · by_cases htype : (u.userType == "practitioner") = true
          · cases fail with
            | true => simp [hpw, htype]
            | false => simp [hpw, htype, presenceRowsOf_insertOrReplace_other t u.id now ip ua v hu]
          · simp [hpw, htype]
        · simp [hpw]
  · unfold httpHeartbeat
    cases fail with
    | true => rfl
    | false => simp [presenceRowsOf_insertOrReplace_other t beatUid now ip ua v hbeat]
  · unfold logout
    by_cases htok : tokenValid = true
    · by_cases htype : (utype == "practitioner") = true
      · cases fail with
        | true => simp [htok, htype]
        | false => simp [htok, htype, presenceRowsOf_delete_other t logoutUid v hlogout]
      · simp [htok, htype]
    · simp [htok]
  · unfold socketHeartbeat
    cases payload with
    | none => rfl
    | some uid =>
        have huid : uid ≠ v := fun hv => hsock (hv ▸ rfl)
        by_cases hz : (uid == 0) = true
        · simp [hz]
        · cases fail with
          | true => simp [hz]
          | false => simp [hz, presenceRowsOf_insertOrReplace_other t uid now ip ua v huid]

/-- Witness for `c3_presence_ownership`: one stored user, concrete operations all
on behalf of user 1, observer row owner `v = 2`. -/
theorem c3_presence_ownership_witness :
    presenceRowsOf (login [⟨1, "a@b.c", "pw", "F", "L", "practitioner"⟩]
        [] false "a@b.c" "pw" 50 "ip" "ua").sessions 2
      = presenceRowsOf [] 2
    ∧ presenceRowsOf (httpHeartbeat [] false 1 50 "ip" "ua").sessions 2
      = presenceRowsOf [] 2
    ∧ presenceRowsOf (logout [] false true 1 "practitioner").sessions 2
      = presenceRowsOf [] 2
    ∧ presenceRowsOf (socketHeartbeat [] false (some 1) 50 "ip" "ua").1 2
      = presenceRowsOf [] 2 :=
  c3_presence_ownership [⟨1, "a@b.c", "pw", "F", "L", "practitioner"⟩]
    [] false "a@b.c" "pw" 50 "ip" "ua" 1 1 true "practitioner" (some 1) 2
    (by intro u hu; simp [findUserByEmail, List.find?] at hu; subst hu; decide)
    (by decide) (by decide) (by decide)

/-- C8: every failed login attempt — the email matching no stored user, or the
password being wrong for an existing user — produces the identical response:
401 with the same generic message, no state change, no broadcast.  In particular
the response does not reveal whether the email exists. -/
theorem c8_login_generic_401
    (users : List UserRow) (sessions : SessionTable) (writeFails : Bool)
    (email password : String) (now : Nat) (ip ua : String)
    (h : loginAuthFails users email password = true) :
    login users sessions writeFails email password now ip ua
      = ⟨401, some "Invalid email or password", sessions, []⟩ := by
  unfold login
  unfold loginAuthFails at h
  cases hf : findUserByEmail users email with
  | none => rfl
  | some u =>
      rw [hf] at h
      simp only [Bool.not_eq_true'] at h
      simp [h]

/-- Witness for `c8_login_generic_401`: a store containing `a@b.c`, queried with a
wrong password. -/
theorem c8_login_generic_401_witness :
    login [⟨1, "a@b.c", "pw", "F", "L", "practitioner"⟩] [] false "a@b.c" "wrong"
        50 "ip" "ua"
      = ⟨401, some "Invalid email or password", [], []⟩ :=
  c8_login_generic_401 [⟨1, "a@b.c", "pw", "F", "L", "practitioner"⟩] [] false
    "a@b.c" "wrong" 50 "ip" "ua" (by decide)

/-- C5 counterexample: the claim says a storage failure in the presence write
never fails the caller's primary operation for login, heartbeat, or logout; but
the HTTP heartbeat handler sends its response inside the write's callback and
returns 500 on a storage error instead of succeeding. -/
theorem c5_counterexample :
    ¬ (∀ (t : SessionTable) (uid : Nat) (now : Nat) (ip ua : String),
        (httpHeartbeat t true uid now ip ua).status = 200) := by
  intro h
  have h0 := h [] 7 1000 "ip" "ua"
  simp [httpHeartbeat] at h0

/-- C5 (amended): a presence-write storage failure does not fail login or logout
(they still return 200) and is merely logged by the socket heartbeat (no state
change, no broadcast); but the HTTP heartbeat, whose primary operation is the
presence write itself, fails with 500 and leaves the table unchanged; and a
storage failure in the batched roster presence read degrades every entry's
activity to inactive rather than failing the read. -/
theorem c5_presence_failure_policy
    (users : List UserRow) (sessions : SessionTable) (avail : AvailDB)
    (email pw : String) (now : Nat) (ip ua : String)
    (uid : Nat) (payload : Option Nat) (u : UserRow)
    (hfind : findUserByEmail users email = some u)
    (hpw : passwordMatches pw u.password = true) :
    (login users sessions true email pw now ip ua).status = 200
    ∧ (logout sessions true true uid "practitioner").status = 200
    ∧ (∀ view ∈ getAllPractitioners users avail sessions true now,
        view.isActive = false)
    ∧ (httpHeartbeat sessions true uid now ip ua).status = 500
    ∧ (httpHeartbeat sessions true uid now ip ua).sessions = sessions
    ∧ socketHeartbeat sessions true payload now ip ua = (sessions, []) := by
  refine ⟨?_, rfl, ?_, rfl, rfl, ?_⟩
  · unfold login
    rw [hfind]
    by_cases htype : (u.userType == "practitioner") = true
    · simp [hpw, htype]
    · simp [hpw, htype]
  · intro view hview
    unfold getAllPractitioners at hview
    simp only [if_true, List.mem_map] at hview
    rcases hview with ⟨w, _, hw⟩
    rw [← hw]
    rfl
  · unfold socketHeartbeat
    cases payload with
    | none => rfl
    | some pid =>
        by_cases hz : (pid == 0) = true
        · simp [hz]
        · simp [hz]

/-- Witness for `c5_presence_failure_policy` at a one-user store. -/
theorem c5_presence_failure_policy_witness :
    (login [⟨1, "a@b.c", "pw", "F", "L", "practitioner"⟩] [] true "a@b.c" "pw"
        50 "ip" "ua").status = 200
    ∧ (logout [] true true 1 "practitioner").status = 200
    ∧ (∀ view ∈ getAllPractitioners [⟨1, "a@b.c", "pw", "F", "L", "practitioner"⟩]
          ⟨[], 0⟩ [] true 50, view.isActive = false)
    ∧ (httpHeartbeat [] true 1 50 "ip" "ua").status = 500
    ∧ (httpHeartbeat [] true 1 50 "ip" "ua").sessions = []
    ∧ socketHeartbeat [] true (some 1) 50 "ip" "ua" = ([], []) :=
  c5_presence_failure_policy [⟨1, "a@b.c", "pw", "F", "L", "practitioner"⟩]
    [] ⟨[], 0⟩ "a@b.c" "pw" 50 "ip" "ua" 1 (some 1)
    ⟨1, "a@b.c", "pw", "F", "L", "practitioner"⟩ (by rfl) (by decide)

/-! ## Availability helper lemmas -/

/-- Branch equation: a validly ordered upsert that finds no existing row inserts
a fresh row under the next AUTOINCREMENT id. -/
theorem upsert_eq_insert (db : AvailDB) (p : Nat) (d : String) (s e : HM)
    (hvalid : (validDay d && validHM s && validHM e) = true)
    (hord : s.toMinutes < e.toMinutes)
    (hf : db.rows.find? (fun r => r.practitionerId == p && r.dayOfWeek == d) = none) :
    upsert db p d s e
      = ⟨⟨db.rows ++ [⟨db.nextId, p, d, s, e⟩], db.nextId + 1⟩,
         200, some ⟨db.nextId, p, d, s, e⟩⟩ := by
  have hgt : ¬ (HM.toMinutes e ≤ HM.toMinutes s) := by omega
  unfold upsert
  rw [hvalid, hf]
  simp [hgt]

/-- Branch equation: a validly ordered upsert that finds an existing row `ex`
updates it in place and reports `ex.id`. -/
theorem upsert_eq_update (db : AvailDB) (p : Nat) (d : String) (s e : HM)
    (ex : SlotRow)
    (hvalid : (validDay d && validHM s && validHM e) = true)
    (hord : s.toMinutes < e.toMinutes)
    (hf : db.rows.find? (fun r => r.practitionerId == p && r.dayOfWeek == d)
      = some ex) :
    upsert db p d s e
      = ⟨⟨db.rows.map (fun r =>
            if r.id == ex.id then { r with startTime := s, endTime := e } else r),
          db.nextId⟩,
         200, some ⟨ex.id, p, d, s, e⟩⟩ := by
  have hgt : ¬ (HM.toMinutes e ≤ HM.toMinutes s) := by omega
  unfold upsert
  rw [hvalid, hf]
  simp [hgt]

/-- Branch equation: an upsert whose end does not exceed its start is rejected
without touching the table. -/
theorem upsert_eq_reject (db : AvailDB) (p : Nat) (d : String) (s e : HM)
    (hvalid : (validDay d && validHM s && validHM e) = true)
    (hle : e.toMinutes ≤ s.toMinutes) :
    upsert db p d s e = ⟨db, 400, none⟩ := by
  unfold upsert
  rw [hvalid]
  simp [hle]

/-- In a list that is pairwise-`R`, a predicate incompatible with `R` (no two
related elements can both satisfy it) selects at most its one known witness. -/
theorem filter_eq_singleton_of_pairwise {α : Type} {R : α → α → Prop} (q : α → Bool)
    {l : List α} (hp : l.Pairwise R) {x : α} (hx : x ∈ l) (hqx : q x = true)
    (hcompat : ∀ a b, q a = true → q b = true → ¬ R a b) :
    l.filter q = [x] := by
  induction l with
  | nil => cases hx
  | cons a l ih =>
      rcases List.pairwise_cons.mp hp with ⟨ha, hl⟩
      rcases List.mem_cons.mp hx with hax | hx'
      · have hqa : q a = true := hax ▸ hqx
        have hrest : List.filter q l = [] := by
          rw [List.filter_eq_nil_iff]
          intro b hb hqb
          exact hcompat a b hqa hqb (ha b hb)
        simp [List.filter_cons, hqa, hrest, hax]
      · have hqa : q a = false := by
          cases hqa : q a
          · rfl
          · exact absurd (ha x hx') (hcompat a x hqa hqx)
        simp [List.filter_cons, hqa, ih hl hx']

/-- After a valid upsert, the rows carrying the key (practitioner, day) are
exactly one row with the submitted times. -/
theorem upsert_rows_key (db : AvailDB) (p : Nat) (d : String) (s e : HM)
    (hkey : availKeyUnique db)
    (hvalid : (validDay d && validHM s && validHM e) = true)
    (hord : s.toMinutes < e.toMinutes) :
    ∃ i, (upsert db p d s e).db.rows.filter
        (fun r => r.practitionerId == p && r.dayOfWeek == d) = [⟨i, p, d, s, e⟩] := by
  cases hf : db.rows.find? (fun r => r.practitionerId == p && r.dayOfWeek == d) with
  | none =>
      refine ⟨db.nextId, ?_⟩
      rw [upsert_eq_insert db p d s e hvalid hord hf]
      have hnone : ∀ a ∈ db.rows,
          ¬ ((a.practitionerId == p && a.dayOfWeek == d) = true) := by
        intro a ha
        simpa using List.find?_eq_none.mp hf a ha
      have h1 : db.rows.filter (fun r => r.practitionerId == p && r.dayOfWeek == d)
          = [] := List.filter_eq_nil_iff.mpr hnone
      simp [List.filter_append, h1]
  | some ex =>
      refine ⟨ex.id, ?_⟩
      rw [upsert_eq_update db p d s e ex hvalid hord hf]
      have hex_mem : ex ∈ db.rows := List.mem_of_find?_eq_some hf
      have hex_kp := List.find?_some hf
      rw [List.filter_map]
      have hsame : db.rows.filter
            ((fun r => r.practitionerId == p && r.dayOfWeek == d) ∘
              (fun r => if r.id == ex.id then { r with startTime := s, endTime := e }
                else r))
          = db.rows.filter (fun r => r.practitionerId == p && r.dayOfWeek == d) := by
        apply List.filter_congr
        intro a _
        by_cases hc : a.id = ex.id <;> simp [hc]
      rw [hsame]
      have hone : db.rows.filter (fun r => r.practitionerId == p && r.dayOfWeek == d)
          = [ex] := by
        apply filter_eq_singleton_of_pairwise _ hkey hex_mem hex_kp
        intro a b hqa hqb hR
        simp only [Bool.and_eq_true, beq_iff_eq] at hqa hqb
        rcases hR with hpid | hday
        · exact hpid (hqa.1.trans hqb.1.symm)
        · exact hday (hqa.2.trans hqb.2.symm)
      rw [hone]
      simp only [Bool.and_eq_true, beq_iff_eq] at hex_kp
      simp [hex_kp.1, hex_kp.2]

/-- Upsert preserves the `UNIQUE(practitionerId, dayOfWeek)` invariant. -/
theorem upsert_preserves_keyUnique (db : AvailDB) (p : Nat) (d : String) (s e : HM)
    (hkey : availKeyUnique db) :
    availKeyUnique (upsert db p d s e).db := by
  unfold availKeyUnique at hkey ⊢
  by_cases hvalid : (validDay d && validHM s && validHM e) = true
  · by_cases hord : HM.toMinutes s < HM.toMinutes e
    · cases hf : db.rows.find? (fun r => r.practitionerId == p && r.dayOfWeek == d) with
      | none =>
          rw [upsert_eq_insert db p d s e hvalid hord hf]
          have hcond : ∀ a ∈ db.rows,
              ∀ b ∈ ([⟨db.nextId, p, d, s, e⟩] : List SlotRow),
              a.practitionerId ≠ b.practitionerId ∨ a.dayOfWeek ≠ b.dayOfWeek := by
            intro a ha b hb
            rcases List.mem_singleton.mp hb with rfl
            have hnk : ¬ ((a.practitionerId == p && a.dayOfWeek == d) = true) := by
              simpa using List.find?_eq_none.mp hf a ha
            simp only [Bool.and_eq_true, beq_iff_eq, not_and] at hnk
            by_cases hpid : a.practitionerId = p
            · exact Or.inr (fun hday => hnk hpid hday)
            · exact Or.inl hpid
          exact List.pairwise_append.mpr
            ⟨hkey, List.pairwise_singleton _ _, hcond⟩
      | some ex =>
          rw [upsert_eq_update db p d s e ex hvalid hord hf]
          refine List.Pairwise.map _ ?_ hkey
          intro a b hab
          by_cases ha : a.id = ex.id <;> by_cases hb : b.id = ex.id <;>
            simpa [ha, hb] using hab
    · rw [upsert_eq_reject db p d s e hvalid (by omega)]
      exact hkey
  · have : upsert db p d s e = ⟨db, 400, none⟩ := by
      unfold upsert
      rw [if_pos]
      simpa using hvalid
    rw [this]
    exact hkey

/-- The seven `CASE` ranks separate the seven valid day names. -/
theorem dayRank_inj_on_valid (d₁ d₂ : String) (h₁ : validDay d₁ = true)
    (h₂ : validDay d₂ = true) (h : dayRank d₁ = dayRank d₂) : d₁ = d₂ := by
  have m₁ : d₁ ∈ dayNames := by simpa [validDay] using h₁
  have m₂ : d₂ ∈ dayNames := by simpa [validDay] using h₂
  simp only [dayNames, List.mem_cons, List.mem_singleton, List.not_mem_nil,
    or_false] at m₁ m₂
  rcases m₁ with rfl | rfl | rfl | rfl | rfl | rfl | rfl <;>
    rcases m₂ with rfl | rfl | rfl | rfl | rfl | rfl | rfl <;>
      first
        | rfl
        | exact absurd h (by decide)

/-! ## Claims about the availability calendar -/

/-- C6: an upsert whose end time is not strictly after its start time (compared
as minutes since midnight) is rejected with a 400 validation error and stores
nothing; at the boundary, end equal to start is rejected while end equal to
start plus one minute is accepted. -/
theorem c6_upsert_time_ordering (db : AvailDB) (p : Nat) (d : String) (s e e' : HM)
    (hd : validDay d = true) (hs : validHM s = true) (he : validHM e = true)
    (he' : validHM e' = true)
    (hle : e.toMinutes ≤ s.toMinutes) (hsucc : e'.toMinutes = s.toMinutes + 1) :
    (upsert db p d s e).status = 400
    ∧ (upsert db p d s e).db = db
    ∧ (upsert db p d s e).slot = none
    ∧ (upsert db p d s e').status = 200 := by
  have hvalid : (validDay d && validHM s && validHM e) = true := by
    rw [hd, hs, he]
    rfl
  have hvalid' : (validDay d && validHM s && validHM e') = true := by
    rw [hd, hs, he']
    rfl
  have hord' : HM.toMinutes s < HM.toMinutes e' := by omega
  rw [upsert_eq_reject db p d s e hvalid hle]
  refine ⟨rfl, rfl, rfl, ?_⟩
  cases hf : db.rows.find? (fun r => r.practitionerId == p && r.dayOfWeek == d) with
  | none => rw [upsert_eq_insert db p d s e' hvalid' hord' hf]
  | some ex => rw [upsert_eq_update db p d s e' ex hvalid' hord' hf]

/-- Witness for `c6_upsert_time_ordering`: Monday 09:00-09:00 rejected,
09:00-09:01 accepted. -/
theorem c6_upsert_time_ordering_witness :
    (upsert ⟨[], 0⟩ 1 "Monday" ⟨9, 0⟩ ⟨9, 0⟩).status = 400
    ∧ (upsert ⟨[], 0⟩ 1 "Monday" ⟨9, 0⟩ ⟨9, 0⟩).db = ⟨[], 0⟩
    ∧ (upsert ⟨[], 0⟩ 1 "Monday" ⟨9, 0⟩ ⟨9, 0⟩).slot = none
    ∧ (upsert ⟨[], 0⟩ 1 "Monday" ⟨9, 0⟩ ⟨9, 1⟩).status = 200 :=
  c6_upsert_time_ordering ⟨[], 0⟩ 1 "Monday" ⟨9, 0⟩ ⟨9, 0⟩ ⟨9, 1⟩
    (by decide) (by decide) (by decide) (by decide) (by decide) (by decide)

/-- C10: when a row for (practitioner, day) already exists, upsert updates it in
place — the returned slot carries the existing row's id, and the ids of all
stored rows are unchanged, so a slot's id is stable across repeated upserts. -/
theorem c10_upsert_id_stable (db : AvailDB) (p : Nat) (d : String) (s e : HM)
    (ex : SlotRow)
    (hd : validDay d = true) (hs : validHM s = true) (he : validHM e = true)
    (hord : s.toMinutes < e.toMinutes)
    (hfind : db.rows.find? (fun r => r.practitionerId == p && r.dayOfWeek == d)
      = some ex) :
    (upsert db p d s e).slot = some ⟨ex.id, p, d, s, e⟩
    ∧ (upsert db p d s e).db.rows.map (fun r => r.id)
        = db.rows.map (fun r => r.id) := by
  have hvalid : (validDay d && validHM s && validHM e) = true := by
    rw [hd, hs, he]
    rfl
  rw [upsert_eq_update db p d s e ex hvalid hord hfind]
  refine ⟨rfl, ?_⟩
  rw [List.map_map]
  apply List.map_congr_left
  intro a _
  by_cases hc : a.id = ex.id <;> simp [hc]

/-- Witness for `c10_upsert_id_stable`: a table already holding Monday slot id 5. -/
theorem c10_upsert_id_stable_witness :
    (upsert ⟨[⟨5, 1, "Monday", ⟨9, 0⟩, ⟨17, 0⟩⟩], 6⟩ 1 "Monday" ⟨10, 0⟩ ⟨18, 0⟩).slot
      = some ⟨5, 1, "Monday", ⟨10, 0⟩, ⟨18, 0⟩⟩
    ∧ (upsert ⟨[⟨5, 1, "Monday", ⟨9, 0⟩, ⟨17, 0⟩⟩], 6⟩ 1 "Monday"
          ⟨10, 0⟩ ⟨18, 0⟩).db.rows.map (fun r => r.id)
      = ([⟨5, 1, "Monday", ⟨9, 0⟩, ⟨17, 0⟩⟩] : List SlotRow).map (fun r => r.id) :=
  c10_upsert_id_stable ⟨[⟨5, 1, "Monday", ⟨9, 0⟩, ⟨17, 0⟩⟩], 6⟩ 1 "Monday"
    ⟨10, 0⟩ ⟨18, 0⟩ ⟨5, 1, "Monday", ⟨9, 0⟩, ⟨17, 0⟩⟩
    (by decide) (by decide) (by decide) (by decide) (by decide)

/-- C4: deleting a slot owned by another practitioner reports 404 — exactly like
deleting a non-existent slot id — and leaves the table, in particular the
victim's slot, unchanged. -/
theorem c4_delete_foreign_not_found (db : AvailDB) (victim : SlotRow) (A : Nat)
    (hid : availIdUnique db) (hmem : victim ∈ db.rows)
    (hA : A ≠ victim.practitionerId) :
    (deleteSlot db victim.id A).status = 404
    ∧ (deleteSlot db victim.id A).db.rows = db.rows
    ∧ victim ∈ (deleteSlot db victim.id A).db.rows
    ∧ (∀ ghost, (∀ r ∈ db.rows, r.id ≠ ghost) →
        (deleteSlot db ghost A).status = 404) := by
  unfold availIdUnique at hid
  have hall : ∀ r ∈ db.rows,
      ¬ ((r.id == victim.id && r.practitionerId == A) = true) := by
    intro r hr hpred
    simp only [Bool.and_eq_true, beq_iff_eq] at hpred
    by_cases hrv : r = victim
    · exact hA (hrv ▸ hpred.2).symm
    · have hsym : Symmetric (fun a b : SlotRow => a.id ≠ b.id) := by
        intro a b hab he
        exact hab he.symm
      exact List.Pairwise.forall hsym hid hr hmem hrv hpred.1
  have hcount : db.rows.countP
      (fun r => r.id == victim.id && r.practitionerId == A) = 0 :=
    List.countP_eq_zero.mpr hall
  have hfilter : db.rows.filter
      (fun r => ¬ (r.id == victim.id && r.practitionerId == A)) = db.rows := by
    apply List.filter_eq_self.mpr
    intro a ha
    simp only [decide_eq_true_eq]
    exact hall a ha
  refine ⟨?_, ?_, ?_, ?_⟩
  · unfold deleteSlot
    rw [hcount]
    rfl
  · unfold deleteSlot
    rw [hcount, hfilter]
    rfl
  · unfold deleteSlot
    rw [hcount, hfilter]
    exact hmem
  · intro ghost hghost
    have hall' : ∀ r ∈ db.rows,
        ¬ ((r.id == ghost && r.practitionerId == A) = true) := by
      intro r hr hpred
      simp only [Bool.and_eq_true, beq_iff_eq] at hpred
      exact hghost r hr hpred.1
    have hcount' : db.rows.countP
        (fun r => r.id == ghost && r.practitionerId == A) = 0 :=
      List.countP_eq_zero.mpr hall'
    unfold deleteSlot
    rw [hcount']
    rfl

/-- Witness for `c4_delete_foreign_not_found`: practitioner 2 tries to delete
practitioner 1's Monday slot (id 5). -/
theorem c4_delete_foreign_not_found_witness :
    (deleteSlot ⟨[⟨5, 1, "Monday", ⟨9, 0⟩, ⟨17, 0⟩⟩], 6⟩ 5 2).status = 404
    ∧ (deleteSlot ⟨[⟨5, 1, "Monday", ⟨9, 0⟩, ⟨17, 0⟩⟩], 6⟩ 5 2).db.rows
      = [⟨5, 1, "Monday", ⟨9, 0⟩, ⟨17, 0⟩⟩]
    ∧ (⟨5, 1, "Monday", ⟨9, 0⟩, ⟨17, 0⟩⟩ : SlotRow)
        ∈ (deleteSlot ⟨[⟨5, 1, "Monday", ⟨9, 0⟩, ⟨17, 0⟩⟩], 6⟩ 5 2).db.rows
    ∧ (∀ ghost, (∀ r ∈ ([⟨5, 1, "Monday", ⟨9, 0⟩, ⟨17, 0⟩⟩] : List SlotRow),
          r.id ≠ ghost) →
        (deleteSlot ⟨[⟨5, 1, "Monday", ⟨9, 0⟩, ⟨17, 0⟩⟩], 6⟩ ghost 2).status = 404) :=
  c4_delete_foreign_not_found ⟨[⟨5, 1, "Monday", ⟨9, 0⟩, ⟨17, 0⟩⟩], 6⟩
    ⟨5, 1, "Monday", ⟨9, 0⟩, ⟨17, 0⟩⟩ 2
    (List.pairwise_singleton _ _) (List.mem_singleton_self _) (by decide)

/-- Under the uniqueness invariant and valid stored day names, the rows of one
practitioner have pairwise distinct day ranks. -/
theorem pairwise_rank_ne_filter (db : AvailDB) (p : Nat)
    (hkey : availKeyUnique db)
    (hdays : ∀ r ∈ db.rows, validDay r.dayOfWeek = true) :
    (db.rows.filter (fun r => r.practitionerId == p)).Pairwise
      (fun a b => dayRank a.dayOfWeek ≠ dayRank b.dayOfWeek) := by
  have hr : (db.rows.filter (fun r => r.practitionerId == p)).Pairwise
      (fun a b => a.practitionerId ≠ b.practitionerId ∨ a.dayOfWeek ≠ b.dayOfWeek) :=
    hkey.sublist (List.filter_sublist _)
  refine hr.imp_of_mem ?_
  intro a b ha hb hR
  have hpa : a.practitionerId = p := beq_iff_eq.mp (List.mem_filter.mp ha).2
  have hpb : b.practitionerId = p := beq_iff_eq.mp (List.mem_filter.mp hb).2
  have hda : validDay a.dayOfWeek = true := hdays a (List.mem_filter.mp ha).1
  have hdb : validDay b.dayOfWeek = true := hdays b (List.mem_filter.mp hb).1
  rcases hR with hpid | hday
  · exact absurd (hpa.trans hpb.symm) hpid
  · intro hrank
    exact hday (dayRank_inj_on_valid _ _ hda hdb hrank)

/-- With pairwise-distinct day ranks the insertion-sorted listing is sorted under
the strict rank order. -/
theorem sorted_slotLt_listAvailability (db : AvailDB) (p : Nat)
    (hS : (db.rows.filter (fun r => r.practitionerId == p)).Pairwise
      (fun a b => dayRank a.dayOfWeek ≠ dayRank b.dayOfWeek)) :
    List.Sorted slotLt (listAvailability db p) := by
  have hle : List.Sorted slotLe (listAvailability db p) :=
    List.sorted_insertionSort _ _
  have hsymm : Symmetric
      (fun a b : SlotRow => dayRank a.dayOfWeek ≠ dayRank b.dayOfWeek) := by
    intro a b hab he
    exact hab he.symm
  have hSl : (listAvailability db p).Pairwise
      (fun a b => dayRank a.dayOfWeek ≠ dayRank b.dayOfWeek) :=
    ((List.perm_insertionSort slotLe _).pairwise_iff
      (fun hab => hsymm hab)).mpr hS
  exact (hle.and hSl).imp (fun hab => Nat.lt_of_le_of_ne hab.1 hab.2)

/-- C7: the listing returns exactly the practitioner's stored slots, sorted by
canonical day-of-week rank (Monday first through Sunday last); moreover, under
the uniqueness invariant and valid stored day names the output is the same for
any storage (insertion) order of the rows. -/
theorem c7_list_day_ordered (db db' : AvailDB) (p : Nat)
    (hkey : availKeyUnique db)
    (hdays : ∀ r ∈ db.rows, validDay r.dayOfWeek = true)
    (hperm : db.rows.Perm db'.rows) :
    (listAvailability db p).Perm
        (db.rows.filter (fun r => r.practitionerId == p))
    ∧ List.Sorted slotLe (listAvailability db p)
    ∧ listAvailability db p = listAvailability db' p := by
  refine ⟨List.perm_insertionSort _ _, List.sorted_insertionSort _ _, ?_⟩
  have hS := pairwise_rank_ne_filter db p hkey hdays
  have hsymm : Symmetric
      (fun a b : SlotRow => dayRank a.dayOfWeek ≠ dayRank b.dayOfWeek) := by
    intro a b hab he
    exact hab he.symm
  have hS' : (db'.rows.filter (fun r => r.practitionerId == p)).Pairwise
      (fun a b => dayRank a.dayOfWeek ≠ dayRank b.dayOfWeek) :=
    ((hperm.filter _).pairwise_iff (fun hab => hsymm hab)).mp hS
  have hsorted₁ := sorted_slotLt_listAvailability db p hS
  have hsorted₂ := sorted_slotLt_listAvailability db' p hS'
  have hpl : (listAvailability db p).Perm (listAvailability db' p) :=
    (List.perm_insertionSort _ _).trans
      ((hperm.filter _).trans (List.perm_insertionSort _ _).symm)
  exact List.eq_of_perm_of_sorted hpl hsorted₁ hsorted₂

/-- Witness for `c7_list_day_ordered`: Tuesday and Monday slots stored in reverse
day order, the second table holding the same rows in swapped order. -/
theorem c7_list_day_ordered_witness :
    (listAvailability ⟨[⟨1, 1, "Tuesday", ⟨9, 0⟩, ⟨10, 0⟩⟩,
        ⟨2, 1, "Monday", ⟨8, 0⟩, ⟨9, 0⟩⟩], 3⟩ 1).Perm
        (([⟨1, 1, "Tuesday", ⟨9, 0⟩, ⟨10, 0⟩⟩,
          ⟨2, 1, "Monday", ⟨8, 0⟩, ⟨9, 0⟩⟩] : List SlotRow).filter
          (fun r => r.practitionerId == 1))
    ∧ List.Sorted slotLe (listAvailability ⟨[⟨1, 1, "Tuesday", ⟨9, 0⟩, ⟨10, 0⟩⟩,
        ⟨2, 1, "Monday", ⟨8, 0⟩, ⟨9, 0⟩⟩], 3⟩ 1)
    ∧ listAvailability ⟨[⟨1, 1, "Tuesday", ⟨9, 0⟩, ⟨10, 0⟩⟩,
        ⟨2, 1, "Monday", ⟨8, 0⟩, ⟨9, 0⟩⟩], 3⟩ 1
      = listAvailability ⟨[⟨2, 1, "Monday", ⟨8, 0⟩, ⟨9, 0⟩⟩,
        ⟨1, 1, "Tuesday", ⟨9, 0⟩, ⟨10, 0⟩⟩], 3⟩ 1 :=
  c7_list_day_ordered
    ⟨[⟨1, 1, "Tuesday", ⟨9, 0⟩, ⟨10, 0⟩⟩, ⟨2, 1, "Monday", ⟨8, 0⟩, ⟨9, 0⟩⟩], 3⟩
    ⟨[⟨2, 1, "Monday", ⟨8, 0⟩, ⟨9, 0⟩⟩, ⟨1, 1, "Tuesday", ⟨9, 0⟩, ⟨10, 0⟩⟩], 3⟩ 1
    (by unfold availKeyUnique; decide) (by decide) (by decide)

/-- C2: for a valid practitioner slot input, upsert followed by list returns
exactly one slot for the submitted day, carrying the submitted times; and
upserting the same (practitioner, day) twice with different times leaves exactly
one stored row, reflecting the second call's times, never two rows. -/
theorem c2_upsert_list_exactly_one (db : AvailDB) (p : Nat) (d : String)
    (s e s' e' : HM) (hkey : availKeyUnique db)
    (hd : validDay d = true) (hs : validHM s = true) (he : validHM e = true)
    (hs' : validHM s' = true) (he' : validHM e' = true)
    (hord : s.toMinutes < e.toMinutes) (hord' : s'.toMinutes < e'.toMinutes) :
    (∃ i, (listAvailability (upsert db p d s e).db p).filter
        (fun r => r.dayOfWeek == d) = [⟨i, p, d, s, e⟩])
    ∧ (∃ i, (upsert (upsert db p d s e).db p d s' e').db.rows.filter
        (fun r => r.practitionerId == p && r.dayOfWeek == d)
        = [⟨i, p, d, s', e'⟩]) := by
  have hvalid : (validDay d && validHM s && validHM e) = true := by
    rw [hd, hs, he]
    rfl
  have hvalid' : (validDay d && validHM s' && validHM e') = true := by
    rw [hd, hs', he']
    rfl
  constructor
  · rcases upsert_rows_key db p d s e hkey hvalid hord with ⟨i, hi⟩
    refine ⟨i, ?_⟩
    have hperm : (listAvailability (upsert db p d s e).db p).Perm
        ((upsert db p d s e).db.rows.filter (fun r => r.practitionerId == p)) :=
      List.perm_insertionSort _ _
    have h2 := hperm.filter (fun r => r.dayOfWeek == d)
    have hsub : ((upsert db p d s e).db.rows.filter
          (fun r => r.practitionerId == p)).filter (fun r => r.dayOfWeek == d)
        = (upsert db p d s e).db.rows.filter
          (fun r => r.practitionerId == p && r.dayOfWeek == d) := by
      rw [List.filter_filter]
      apply List.filter_congr
      intro a _
      cases hp1 : a.practitionerId == p <;> cases hd1 : a.dayOfWeek == d <;> rfl
    rw [hsub, hi] at h2
    exact List.perm_singleton.mp h2
  · exact upsert_rows_key (upsert db p d s e).db p d s' e'
      (upsert_preserves_keyUnique db p d s e hkey) hvalid' hord'

/-- Witness for `c2_upsert_list_exactly_one`: empty table, Monday 09:00-17:00
then Monday 10:00-18:00. -/
theorem c2_upsert_list_exactly_one_witness :
    (∃ i, (listAvailability (upsert ⟨[], 0⟩ 1 "Monday" ⟨9, 0⟩ ⟨17, 0⟩).db 1).filter
        (fun r => r.dayOfWeek == "Monday") = [⟨i, 1, "Monday", ⟨9, 0⟩, ⟨17, 0⟩⟩])
    ∧ (∃ i, (upsert (upsert ⟨[], 0⟩ 1 "Monday" ⟨9, 0⟩ ⟨17, 0⟩).db 1 "Monday"
          ⟨10, 0⟩ ⟨18, 0⟩).db.rows.filter
        (fun r => r.practitionerId == 1 && r.dayOfWeek == "Monday")
        = [⟨i, 1, "Monday", ⟨10, 0⟩, ⟨18, 0⟩⟩]) :=
  c2_upsert_list_exactly_one ⟨[], 0⟩ 1 "Monday" ⟨9, 0⟩ ⟨17, 0⟩ ⟨10, 0⟩ ⟨18, 0⟩
    (by constructor) (by decide) (by decide) (by decide) (by decide) (by decide)
    (by decide) (by decide)

end Knko
